import Mathlib

/-!
Verification of the bees status-file parsing core
(`bees_prometheus_exporter.py`, class `BeesCollector`).

The Python code is shallowly embedded as executable Lean functions:

* the status file is a list of lines (`List String`); Python's shared line
  iterator is modelled by passing the list of not-yet-consumed lines around
  explicitly;
* Python exceptions that can escape the parsing core (`StopIteration` from
  `next`, `IndexError` from `parts[i]` / `datasz[-1]`, `ValueError` from
  `float`, `PermissionError` from `open`) are modelled with `Except PyExn`;
  the `ValueError` raised by `int(...)` inside `_parse_progress_lines` is
  caught there by `except ValueError` and therefore stays local;
* the Python `dict` is modelled as an association list where a new binding
  is prepended and lookup takes the most recent binding, which gives the
  same lookup semantics as mutable-dict assignment;
* `float` strings are evaluated in exact rational/integer arithmetic (the
  numerator over a power of ten); the IEEE-754 rounding performed by the
  Python runtime is not modelled, and numeral parsing is restricted to the
  plain unsigned decimal forms (digits with at most one dot) that the
  status-file format produces;
* Python `int(...)` parsing is modelled as an optional sign followed by
  decimal digits (the underscore digit-grouping extension is not modelled);
* trailing newline characters kept by `readlines()` are immaterial to every
  operation the code performs on a line (`startswith`, `split()` and the
  `(\w+)=(\d+)` scan), so lines are modelled without them.
-/

/-- Python exceptions that can escape the parsing core. -/
inductive PyExn
  | stopIteration
  | indexError
  | valueError
  | permissionError
deriving DecidableEq, Repr

instance instDecEqExcept {ε α : Type} [DecidableEq ε] [DecidableEq α] :
    DecidableEq (Except ε α) := fun a b =>
  match a, b with
  | .error e, .error e' =>
    if h : e = e' then .isTrue (by rw [h]) else .isFalse (by simp [h])
  | .error _, .ok _ => .isFalse (by simp)
  | .ok _, .error _ => .isFalse (by simp)
  | .ok v, .ok v' =>
    if h : v = v' then .isTrue (by rw [h]) else .isFalse (by simp [h])


/-- Membership of a character in the `\w` class of the regex
`(\w+)=(\d+)` (ASCII letters, digits, underscore). -/
def isWordChar (c : Char) : Bool := c.isAlphanum || c = '_'

/-- Value of a nonempty run of decimal digit characters. -/
def digitsToNat (ds : List Char) : Nat :=
  ds.foldl (fun n c => 10 * n + (c.toNat - 48)) 0

/-- Python `int(s)` on a whitespace-free string: optional sign followed by
at least one decimal digit; `none` models the `ValueError` raised
otherwise. -/
def pyInt (s : String) : Option Int :=
  match s.data with
  | [] => none
  | '-' :: ds =>
    if ds ≠ [] ∧ ds.all Char.isDigit then some (-(digitsToNat ds : Int)) else none
  | '+' :: ds =>
    if ds ≠ [] ∧ ds.all Char.isDigit then some (digitsToNat ds : Int) else none
  | ds =>
    if ds.all Char.isDigit then some (digitsToNat ds : Int) else none

/-- Python `s.startswith(pre)` for plain strings: `pre`'s characters are a
prefix of `s`'s. -/
def pyStartsWith (s pre : String) : Bool :=
  pre.data.isPrefixOf s.data

/-- Helper for `pySplit`: walk the characters, accumulating the current
token in reverse; whitespace ends the token. -/
def splitWsAux : List Char → List Char → List String
  | [], [] => []
  | [], acc => [String.mk acc.reverse]
  | c :: cs, acc =>
    if c.isWhitespace then
      match acc with
      | [] => splitWsAux cs []
      | _ => String.mk acc.reverse :: splitWsAux cs []
    else splitWsAux cs (c :: acc)

/-- Python `s.split()` with no argument: split on runs of whitespace,
discarding empty pieces. -/
def pySplit (s : String) : List String :=
  splitWsAux s.data []

/-- Matching state of the `(\w+)=(\d+)` scanner: outside any candidate
match, inside a run of word characters (the candidate token, accumulated
in reverse), just past `token=`, or past `token=` inside a nonempty digit
run (accumulated in reverse). -/
inductive ScanSt
  | outside
  | run (tok : List Char)
  | eq (tok : List Char)
  | dig (tok : List Char) (ds : List Char)

/-- The scan performed by `pattern.finditer(line)` for
`pattern = re.compile(r"(\w+)=(\d+)")`, as a single left-to-right pass.
A match is a maximal run of word characters immediately followed by `=`
and at least one digit; the digit run is maximal; matches never overlap
and the search resumes at the first character after a match.  (Shorter
suffixes of a failed word run cannot match either, since the characters
after the run are the same, so discarding a failed run is faithful to the
regex engine's position-by-position retry.) -/
def scanDFA : ScanSt → List Char → List (String × Nat)
  | st, [] =>
    match st with
    | .dig tok ds => [(String.mk tok.reverse, digitsToNat ds.reverse)]
    | _ => []
  | st, c :: cs =>
    match st with
    | .outside =>
      if isWordChar c then scanDFA (.run [c]) cs else scanDFA .outside cs
    | .run tok =>
      if isWordChar c then scanDFA (.run (c :: tok)) cs
      else if c = '=' then scanDFA (.eq tok) cs
      else scanDFA .outside cs
    | .eq tok =>
      if c.isDigit then scanDFA (.dig tok [c]) cs
      else if isWordChar c then scanDFA (.run [c]) cs
      else scanDFA .outside cs
    | .dig tok ds =>
      if c.isDigit then scanDFA (.dig tok (c :: ds)) cs
      else
        (String.mk tok.reverse, digitsToNat ds.reverse) ::
          (if isWordChar c then scanDFA (.run [c]) cs else scanDFA .outside cs)

/-- All `(\w+)=(\d+)` matches of a line, in scan order. -/
def scanPairs (l : List Char) : List (String × Nat) :=
  scanDFA .outside l

/-- `_parse_total_line`: the list of `token=integer` matches found on one
line, in scan order. -/
def parse_total_line (line : String) : List (String × Nat) :=
  scanPairs line.data

/-- The unit table of `_datasz_to_bytes`. -/
def unitFactor : Char → Option Nat
  | 'K' => some 1024
  | 'M' => some (1024 ^ 2)
  | 'G' => some (1024 ^ 3)
  | 'T' => some (1024 ^ 4)
  | _ => none

/-- Plain unsigned decimal numeral (digits with at most one dot, at least
one digit): returns (digits value, number of fractional digits), so the
numeral's value is `n / 10 ^ k`.  `none` models `float`'s `ValueError`. -/
def parseDecimal (s : String) : Option (Nat × Nat) :=
  let cs := s.data
  if cs ≠ [] ∧ cs.all (fun c => c.isDigit || c = '.') ∧
      (cs.filter (fun c => c = '.')).length ≤ 1 ∧ cs.any Char.isDigit then
    let intPart := cs.takeWhile (fun c => c ≠ '.')
    let fracPart := (cs.dropWhile (fun c => c ≠ '.')).drop 1
    some (digitsToNat (intPart ++ fracPart), fracPart.length)
  else none

/-- `_datasz_to_bytes(datasz)`: look at `datasz[-1]` (raising `IndexError`
on the empty string); if it is a known unit suffix, evaluate
`int(float(datasz[:-1]) * unit)` — modelled exactly as
`n * unit / 10 ^ k` with truncating natural division — else return `None`.
A malformed numeral before a recognized suffix raises `ValueError`. -/
def datasz_to_bytes (datasz : String) : Except PyExn (Option Nat) :=
  match datasz.data.getLast? with
  | none => .error .indexError
  | some c =>
    match unitFactor c with
    | none => .ok none
    | some u =>
      match parseDecimal (String.mk datasz.data.dropLast) with
      | none => .error .valueError
      | some (n, k) => .ok (some (n * u / 10 ^ k))

example : datasz_to_bytes "1.5M" = .ok (some 1572864) := by decide
example : datasz_to_bytes "512K" = .ok (some 524288) := by decide
example : datasz_to_bytes "10" = .ok none := by decide
example : datasz_to_bytes "" = .error .indexError := by decide
example : datasz_to_bytes "xM" = .error .valueError := by decide
example : pySplit "  32M   1.5M  idle " = ["32M", "1.5M", "idle"] := by decide
example : scanPairs "a=1 bc=22 x y=:".data = [("a", 1), ("bc", 22)] := by decide
example : scanPairs "a=b=4 a==3 x_1=09".data = [("b", 4), ("x_1", 9)] := by decide
example : scanPairs "TOTAL: n1=123 n2=456".data = [("n1", 123), ("n2", 456)] := by decide
example : pyInt "-42" = some (-42) := by decide
example : pyInt "idle" = none := by decide

/-- The point column of a progress row: the literal `idle` or an integer. -/
inductive PointVal
  | idle
  | val (n : Int)
deriving DecidableEq, Repr

/-- `BeesCollector.ProgressRow`. -/
structure ProgressRow where
  extsz : String
  datasz : String
  point : PointVal
  gen_min : Int
  gen_max : Int
deriving DecidableEq, Repr

/-- The fixed extent-size classes accepted in the `extsz` column. -/
def extszClasses : List String := ["max", "32M", "8M", "2M", "512K", "128K"]

/-- Outcome of the `try` body of `_parse_progress_lines` on one split row:
the `total` terminator, a skipped row (unknown extent-size class, via
`continue`), a caught `ValueError` from `int(...)` (via
`except ValueError: continue`), an uncaught `IndexError` from `parts[i]`,
or a parsed row. -/
inductive RowResult
  | terminator
  | skip
  | valueError
  | indexError
  | row (r : ProgressRow)
deriving DecidableEq, Repr

/-- The `try` body of `_parse_progress_lines` on the fields of one row,
with the source's evaluation order: `parts[0]`, the `total` check, the
extent-size class check, `parts[1]`, `parts[2]`, `int(parts[3])`,
`int(parts[4])`, and finally `int(point)` when the point is not `idle`. -/
def parseProgressRow (parts : List String) : RowResult :=
  match parts with
  | [] => .indexError
  | extsz :: rest1 =>
    if extsz = "total" then .terminator
    else if extsz ∈ extszClasses then
      match rest1 with
      | [] => .indexError
      | datasz :: rest2 =>
        match rest2 with
        | [] => .indexError
        | point :: rest3 =>
          match rest3 with
          | [] => .indexError
          | gmin :: rest4 =>
            match pyInt gmin with
            | none => .valueError
            | some gen_min =>
              match rest4 with
              | [] => .indexError
              | gmax :: _ =>
                match pyInt gmax with
                | none => .valueError
                | some gen_max =>
                  if point = "idle" then
                    .row ⟨extsz, datasz, .idle, gen_min, gen_max⟩
                  else
                    match pyInt point with
                    | none => .valueError
                    | some p => .row ⟨extsz, datasz, .val p, gen_min, gen_max⟩
    else .skip

/-- The `for row in lines` loop of `_parse_progress_lines`: returns the
parsed rows in input order together with the lines the shared iterator has
not consumed (empty at normal exhaustion, the lines after the `total` row
when the terminator fires).  An uncaught `IndexError` escapes. -/
def parseProgressBody : List String → Except PyExn (List ProgressRow × List String)
  | [] => .ok ([], [])
  | row :: rest =>
    match parseProgressRow (pySplit row) with
    | .terminator => .ok ([], rest)
    | .skip => parseProgressBody rest
    | .valueError => parseProgressBody rest
    | .indexError => .error .indexError
    | .row r =>
      match parseProgressBody rest with
      | .error e => .error e
      | .ok (rs, rem) => .ok (r :: rs, rem)

/-- `_parse_progress_lines`, taking the not-yet-consumed lines of the
shared iterator.  The two `next(lines)` header reads raise
`StopIteration` when the iterator is exhausted; a failed `startswith`
check returns an empty row list with the iterator left after the lines
read so far. -/
def parse_progress_lines (lines : List String) :
    Except PyExn (List ProgressRow × List String) :=
  match lines with
  | [] => .error .stopIteration
  | l1 :: rest1 =>
    if pyStartsWith l1 "extsz" then
      match rest1 with
      | [] => .error .stopIteration
      | l2 :: rest2 =>
        if pyStartsWith l2 "-----" then parseProgressBody rest2
        else .ok ([], rest2)
    else .ok ([], rest1)

example :
    parse_progress_lines
      ["extsz   datasz  point  gen_min  gen_max", "-----   ------",
       "32M     1.5M    idle   100      200", "8M      512K    77     50       90",
       "total   2.0G    x      0        0", "trailing junk"] =
    .ok ([⟨"32M", "1.5M", .idle, 100, 200⟩, ⟨"8M", "512K", .val 77, 50, 90⟩],
      ["trailing junk"]) := by decide
example : parse_progress_lines [] = .error .stopIteration := by decide
example : parse_progress_lines ["bogus", "x"] = .ok ([], ["x"]) := by decide
example : parse_progress_lines ["extsz", "-----", "32M 1.5M"] =
    .error .indexError := by decide

/-- The counter dict of `_collect_stats_from_file`, modelled as an
association list: assignment prepends, lookup finds the most recent
binding — the lookup semantics of a mutable Python `dict`. -/
abbrev Dict : Type := List (String × Nat)

/-- `d[k] = v`. -/
def dictSet (d : Dict) (k : String) (v : Nat) : Dict :=
  (k, v) :: d

/-- `d.get(k)`. -/
def dictGet (d : Dict) (k : String) : Option Nat :=
  (List.find? (fun p => p.1 = k) d).map (fun p => p.2)

/-- `d.update(pairs)`: assign each pair in order. -/
def dictUpdate (d : Dict) : List (String × Nat) → Dict
  | [] => d
  | (k, v) :: rest => dictUpdate (dictSet d k v) rest

/-- The iterator of `_parse_progress_lines` never grows: the unconsumed
suffix it returns is at most as long as its input. -/
theorem parseProgressBody_rem_le :
    ∀ l rows rem, parseProgressBody l = .ok (rows, rem) → rem.length ≤ l.length := by
  intro l
  induction l with
  | nil =>
    intro rows rem h
    simp only [parseProgressBody, Except.ok.injEq, Prod.mk.injEq] at h
    simp [← h.2]
  | cons row rest ih =>
    intro rows rem h
    simp only [parseProgressBody] at h
    split at h
    · simp only [Except.ok.injEq, Prod.mk.injEq] at h
      simp [← h.2, Nat.le_succ]
    · exact Nat.le_succ_of_le (ih rows rem h)
    · exact Nat.le_succ_of_le (ih rows rem h)
    · simp at h
    · split at h
      · simp at h
      · rename_i r hr rs rem' hb
        simp only [Except.ok.injEq, Prod.mk.injEq] at h
        rw [← h.2]
        exact Nat.le_succ_of_le (ih rs rem' hb)

theorem parse_progress_lines_rem_le :
    ∀ l rows rem, parse_progress_lines l = .ok (rows, rem) → rem.length ≤ l.length := by
  intro l rows rem h
  match l with
  | [] => simp [parse_progress_lines] at h
  | [l1] =>
    simp only [parse_progress_lines] at h
    split at h
    · simp at h
    · simp only [Except.ok.injEq, Prod.mk.injEq] at h
      simp [← h.2]
  | l1 :: l2 :: rest2 =>
    simp only [parse_progress_lines] at h
    split at h
    · split at h
      · have := parseProgressBody_rem_le rest2 rows rem h
        simp only [List.length_cons]
        omega
      · simp only [Except.ok.injEq, Prod.mk.injEq] at h
        rw [← h.2]
        simp only [List.length_cons]
        omega
    · simp only [Except.ok.injEq, Prod.mk.injEq] at h
      rw [← h.2]
      simp [Nat.le_succ]

/-- `ParserState` of `_collect_stats_from_file`. -/
inductive ParserState
  | NONE
  | TOTAL
  | RATES
  | PROGRESS
deriving DecidableEq, Repr

/-- The `for line in line_iter` loop of `_collect_stats_from_file`:
section headers switch the state (pairs on a header line itself are never
scanned); a `PROGRESS:` header hands the rest of the iterator to
`_parse_progress_lines`, whose result replaces the row list, and the loop
then resumes on whatever lines that call left unconsumed; other lines are
scanned for counter pairs exactly when the state is `TOTAL`. -/
def fileLoop (lines : List String) (st : ParserState) (ret : Dict)
    (rows : List ProgressRow) : Except PyExn (Dict × List ProgressRow) :=
  match lines with
  | [] => .ok (ret, rows)
  | line :: rest =>
    if pyStartsWith line "TOTAL:" then fileLoop rest .TOTAL ret rows
    else if pyStartsWith line "RATES:" then fileLoop rest .RATES ret rows
    else if pyStartsWith line "PROGRESS:" then
      match hp : parse_progress_lines rest with
      | .error e => .error e
      | .ok (newRows, remaining) => fileLoop remaining .PROGRESS ret newRows
    else if st = .RATES ∨ st = .NONE then fileLoop rest st ret rows
    else if st = .TOTAL then
      fileLoop rest st (dictUpdate ret (parse_total_line line)) rows
    else fileLoop rest st ret rows
termination_by lines.length
decreasing_by
  all_goals
    first
    | (simp only [List.length_cons]; omega)
    | (have hle := parse_progress_lines_rem_le _ _ _ hp
       simp only [List.length_cons]
       omega)

/-- Outcome of `stats_file.open()` plus `readlines()` for one status file:
the lines and the `fstat` modification time, a `FileNotFoundError`, or a
`PermissionError` (file present but unreadable). -/
inductive FileOutcome
  | ok (lines : List String) (mtime : Rat)
  | notFound
  | permissionDenied

/-- `_collect_stats_from_file`: only `FileNotFoundError` is caught (logged
warning, empty result with timestamp `0.0`); any other exception
propagates.  On success the parsed counters, progress rows and the file's
modification time are returned. -/
def collect_stats_from_file : FileOutcome → Except PyExn (Dict × List ProgressRow × Rat)
  | .ok lines mtime =>
    match fileLoop lines .NONE [] [] with
    | .error e => .error e
    | .ok (ret, rows) => .ok (ret, rows, mtime)
  | .notFound => .ok ([], [], 0)
  | .permissionDenied => .error .permissionError

/-- The gathering loop of `collect`:
`values[file.stem] = self._collect_stats_from_file(file)` for each
discovered status file, in order; an exception escaping one file's parse
aborts the whole collection cycle (the remaining files are not
processed). -/
def collectValues :
    List (String × FileOutcome) → Except PyExn (List (String × (Dict × List ProgressRow × Rat)))
  | [] => .ok []
  | (stem, fo) :: rest =>
    match collect_stats_from_file fo with
    | .error e => .error e
    | .ok r =>
      match collectValues rest with
      | .error e => .error e
      | .ok rs => .ok ((stem, r) :: rs)

/-- Specification-side description of the TOTAL section: the
`token=integer` occurrences, in scan order, of exactly those lines that
the section state machine consumes while in state `TOTAL` (section header
lines themselves switch the state and are not scanned; lines consumed by
the progress-table parser are not scanned either). -/
def totalPairs (lines : List String) (st : ParserState) :
    Except PyExn (List (String × Nat)) :=
  match lines with
  | [] => .ok []
  | line :: rest =>
    if pyStartsWith line "TOTAL:" then totalPairs rest .TOTAL
    else if pyStartsWith line "RATES:" then totalPairs rest .RATES
    else if pyStartsWith line "PROGRESS:" then
      match hp : parse_progress_lines rest with
      | .error e => .error e
      | .ok (_, remaining) => totalPairs remaining .PROGRESS
    else if st = .RATES ∨ st = .NONE then totalPairs rest st
    else if st = .TOTAL then
      match totalPairs rest st with
      | .error e => .error e
      | .ok ps => .ok (parse_total_line line ++ ps)
    else totalPairs rest st
termination_by lines.length
decreasing_by
  all_goals
    first
    | (simp only [List.length_cons]; omega)
    | (have hle := parse_progress_lines_rem_le _ _ _ hp
       simp only [List.length_cons]
       omega)

/-- One gauge sample as added by `GaugeMetricFamily.add_metric` in
`collect`: the `[uuid, extent_size]` label pair, the value, and the
sample timestamp. -/
structure Sample where
  uuid : String
  extent_size : String
  value : Int
  timestamp : Rat
deriving DecidableEq, Repr

/-- The samples `collect` adds for one progress row: the datasz-bytes
gauge (absent when `_datasz_to_bytes` returned `None`), the idle
indicator, the point gauge (absent when the point is `idle`), and the
generation bounds. -/
structure RowEmission where
  datasz : Option Sample
  point_idle : Sample
  point : Option Sample
  gen_min : Sample
  gen_max : Sample
deriving DecidableEq, Repr

/-- The per-row body of `collect`'s progress loop.  `_datasz_to_bytes` is
called first; an exception there escapes `collect` (no samples for the
row).  Otherwise: a datasz sample only when conversion succeeded, idle
`1` with no point sample for an idle point, idle `0` plus a point sample
for an integer point, and gen_min/gen_max samples always. -/
def emit_progress_row (uuid : String) (ts : Rat) (r : ProgressRow) :
    Except PyExn RowEmission :=
  match datasz_to_bytes r.datasz with
  | .error e => .error e
  | .ok ob =>
    .ok
      { datasz := ob.map (fun b => ⟨uuid, r.extsz, (b : Int), ts⟩)
        point_idle := ⟨uuid, r.extsz, if r.point = .idle then 1 else 0, ts⟩
        point :=
          match r.point with
          | .idle => none
          | .val n => some ⟨uuid, r.extsz, n, ts⟩
        gen_min := ⟨uuid, r.extsz, r.gen_min, ts⟩
        gen_max := ⟨uuid, r.extsz, r.gen_max, ts⟩ }

example : collect_stats_from_file .notFound = .ok ([], [], 0) := by decide
example : collect_stats_from_file .permissionDenied = .error .permissionError := by
  decide
example :
    emit_progress_row "u" 0 ⟨"32M", "1.5M", .idle, 100, 200⟩ =
    .ok { datasz := some ⟨"u", "32M", 1572864, 0⟩, point_idle := ⟨"u", "32M", 1, 0⟩,
          point := none, gen_min := ⟨"u", "32M", 100, 0⟩,
          gen_max := ⟨"u", "32M", 200, 0⟩ } := by decide

theorem dictGet_dictSet (d : Dict) (k : String) (v : Nat) (t : String) :
    dictGet (dictSet d k v) t = if k = t then some v else dictGet d t := by
  by_cases h : k = t <;> simp [dictGet, dictSet, List.find?_cons, h]

/-- One step of the "value of the last matching pair" fold. -/
def lastValStep (t : String) (acc : Option Nat) (p : String × Nat) : Option Nat :=
  if p.1 = t then some p.2 else acc

/-- The value of the last pair with key `t` in scan order, if any. -/
def lastVal (ps : List (String × Nat)) (t : String) : Option Nat :=
  ps.foldl (lastValStep t) none

theorem dictGet_dictUpdate (t : String) :
    ∀ (ps : List (String × Nat)) (d : Dict),
      dictGet (dictUpdate d ps) t = ps.foldl (lastValStep t) (dictGet d t) := by
  intro ps
  induction ps with
  | nil => intro d; simp [dictUpdate]
  | cons kv rest ih =>
    intro d
    obtain ⟨k, v⟩ := kv
    simp only [dictUpdate, List.foldl_cons]
    rw [ih]
    congr 1
    rw [dictGet_dictSet]
    by_cases h : k = t <;> simp [lastValStep, h]

theorem getLast?_cons_eq {α : Type} :
    ∀ (l : List α) (a : α),
      (a :: l).getLast? = match l.getLast? with | none => some a | some b => some b := by
  intro l
  induction l with
  | nil => intro a; rfl
  | cons b l' ih =>
    intro a
    rw [List.getLast?_cons_cons, ih b]
    cases hl : l'.getLast? <;> simp

theorem foldl_lastVal_eq_getLast? (t : String) :
    ∀ (ps : List (String × Nat)) (acc : Option Nat),
      ps.foldl (lastValStep t) acc =
      match ((ps.filter (fun p => p.1 = t)).map (fun p => p.2)).getLast? with
      | none => acc
      | some v => some v := by
  intro ps
  induction ps with
  | nil => intro acc; rfl
  | cons kv rest ih =>
    intro acc
    obtain ⟨k, v⟩ := kv
    simp only [List.foldl_cons]
    rw [ih]
    by_cases h : k = t
    · rw [List.filter_cons_of_pos (by simp [h]), List.map_cons, getLast?_cons_eq]
      have hstep : lastValStep t acc (k, v) = some v := by simp [lastValStep, h]
      rw [hstep]
      cases hl : ((rest.filter (fun p => p.1 = t)).map (fun p => p.2)).getLast? <;>
        rfl
    · rw [List.filter_cons_of_neg (by simp [h])]
      have hstep : lastValStep t acc (k, v) = acc := by simp [lastValStep, h]
      rw [hstep]

theorem lastVal_eq_getLast? (ps : List (String × Nat)) (t : String) :
    lastVal ps t = ((ps.filter (fun p => p.1 = t)).map (fun p => p.2)).getLast? := by
  rw [lastVal, foldl_lastVal_eq_getLast?]
  cases hl : ((ps.filter (fun p => p.1 = t)).map (fun p => p.2)).getLast? <;> rfl

theorem foldl_lastVal_mem (t : String) :
    ∀ (ps : List (String × Nat)) (acc : Option Nat) (v : Nat),
      ps.foldl (lastValStep t) acc = some v → (t, v) ∈ ps ∨ acc = some v := by
  intro ps
  induction ps with
  | nil => intro acc v h; right; exact h
  | cons kv rest ih =>
    intro acc v h
    obtain ⟨k, w⟩ := kv
    simp only [List.foldl_cons] at h
    rcases ih _ v h with hmem | hacc
    · left; exact List.mem_cons_of_mem _ hmem
    · by_cases hk : k = t
      · have hstep : lastValStep t acc (k, w) = some w := by simp [lastValStep, hk]
        rw [hstep] at hacc
        have hwv : w = v := by simpa using hacc
        left
        rw [← hk, ← hwv]
        exact List.mem_cons_self _ _
      · have hstep : lastValStep t acc (k, w) = acc := by simp [lastValStep, hk]
        rw [hstep] at hacc
        right
        exact hacc

theorem foldl_lastVal_some (t : String) :
    ∀ (ps : List (String × Nat)) (u : Nat),
      ∃ w, ps.foldl (lastValStep t) (some u) = some w := by
  intro ps
  induction ps with
  | nil => intro u; exact ⟨u, rfl⟩
  | cons kv rest ih =>
    intro u
    obtain ⟨k, w⟩ := kv
    simp only [List.foldl_cons, lastValStep]
    by_cases hk : k = t
    · simp only [hk, if_pos rfl]
      exact ih w
    · simp only [if_neg hk]
      exact ih u

theorem lastVal_some_of_mem (t : String) (v : Nat) :
    ∀ (ps : List (String × Nat)) (acc : Option Nat),
      (t, v) ∈ ps → ∃ w, ps.foldl (lastValStep t) acc = some w := by
  intro ps
  induction ps with
  | nil => intro acc h; simp at h
  | cons kv rest ih =>
    intro acc h
    obtain ⟨k, w⟩ := kv
    rcases List.mem_cons.mp h with heq | hmem
    · have hk : k = t := by
        have := congrArg Prod.fst heq.symm
        simpa using this
      simp only [List.foldl_cons, lastValStep, hk, if_pos rfl]
      exact foldl_lastVal_some t rest w
    · simp only [List.foldl_cons]
      exact ih _ hmem

theorem dictUpdate_append (d : Dict) :
    ∀ (a b : List (String × Nat)), dictUpdate d (a ++ b) = dictUpdate (dictUpdate d a) b := by
  intro a
  induction a generalizing d with
  | nil => intro b; simp [dictUpdate]
  | cons kv rest ih =>
    intro b
    obtain ⟨k, v⟩ := kv
    simp only [List.cons_append, dictUpdate]
    exact ih (dictSet d k v) b

theorem parseProgressBody_cons_terminator {row : String} {rest : List String}
    (h : parseProgressRow (pySplit row) = .terminator) :
    parseProgressBody (row :: rest) = .ok ([], rest) := by
  simp [parseProgressBody, h]

theorem parseProgressBody_cons_skip {row : String} {rest : List String}
    (h : parseProgressRow (pySplit row) = .skip) :
    parseProgressBody (row :: rest) = parseProgressBody rest := by
  simp [parseProgressBody, h]

theorem parseProgressBody_cons_valueError {row : String} {rest : List String}
    (h : parseProgressRow (pySplit row) = .valueError) :
    parseProgressBody (row :: rest) = parseProgressBody rest := by
  simp [parseProgressBody, h]

theorem parseProgressBody_cons_indexError {row : String} {rest : List String}
    (h : parseProgressRow (pySplit row) = .indexError) :
    parseProgressBody (row :: rest) = .error .indexError := by
  simp [parseProgressBody, h]

theorem parseProgressBody_cons_row {row : String} {rest : List String} {r : ProgressRow}
    (h : parseProgressRow (pySplit row) = .row r) :
    parseProgressBody (row :: rest) =
    match parseProgressBody rest with
    | .error e => .error e
    | .ok (rs, rem) => .ok (r :: rs, rem) := by
  simp only [parseProgressBody, h]

theorem fileLoop_nil (st : ParserState) (ret : Dict) (rows : List ProgressRow) :
    fileLoop [] st ret rows = .ok (ret, rows) := by
  simp [fileLoop]

theorem fileLoop_total {line : String} (rest : List String) (st : ParserState)
    (ret : Dict) (rows : List ProgressRow)
    (h : pyStartsWith line "TOTAL:" = true) :
    fileLoop (line :: rest) st ret rows = fileLoop rest .TOTAL ret rows := by
  rw [fileLoop]
  simp [h]

theorem fileLoop_rates {line : String} (rest : List String) (st : ParserState)
    (ret : Dict) (rows : List ProgressRow)
    (h1 : pyStartsWith line "TOTAL:" = false)
    (h2 : pyStartsWith line "RATES:" = true) :
    fileLoop (line :: rest) st ret rows = fileLoop rest .RATES ret rows := by
  rw [fileLoop]
  simp [h1, h2]

theorem fileLoop_progress {line : String} {rest : List String} (st : ParserState)
    (ret : Dict) (rows0 : List ProgressRow) {newRows : List ProgressRow}
    {rem : List String}
    (h1 : pyStartsWith line "TOTAL:" = false)
    (h2 : pyStartsWith line "RATES:" = false)
    (h3 : pyStartsWith line "PROGRESS:" = true)
    (hp : parse_progress_lines rest = .ok (newRows, rem)) :
    fileLoop (line :: rest) st ret rows0 = fileLoop rem .PROGRESS ret newRows := by
  rw [fileLoop]
  simp only [h1, h2, h3, Bool.false_eq_true, if_false, if_true]
  split
  · rename_i e heq
    rw [hp] at heq
    simp at heq
  · rename_i nr rm heq
    rw [hp] at heq
    simp only [Except.ok.injEq, Prod.mk.injEq] at heq
    rw [heq.1, heq.2]

theorem fileLoop_progress_error {line : String} {rest : List String} (st : ParserState)
    (ret : Dict) (rows0 : List ProgressRow) {e : PyExn}
    (h1 : pyStartsWith line "TOTAL:" = false)
    (h2 : pyStartsWith line "RATES:" = false)
    (h3 : pyStartsWith line "PROGRESS:" = true)
    (hp : parse_progress_lines rest = .error e) :
    fileLoop (line :: rest) st ret rows0 = .error e := by
  rw [fileLoop]
  simp only [h1, h2, h3, Bool.false_eq_true, if_false, if_true]
  split
  · rename_i e' heq
    rw [hp] at heq
    simp only [Except.error.injEq] at heq
    rw [heq]
  · rename_i nr rm heq
    rw [hp] at heq
    simp at heq

theorem fileLoop_skipline {line : String} (rest : List String) {st : ParserState}
    (ret : Dict) (rows : List ProgressRow)
    (h1 : pyStartsWith line "TOTAL:" = false)
    (h2 : pyStartsWith line "RATES:" = false)
    (h3 : pyStartsWith line "PROGRESS:" = false)
    (hst : st = .RATES ∨ st = .NONE) :
    fileLoop (line :: rest) st ret rows = fileLoop rest st ret rows := by
  rw [fileLoop]
  simp [h1, h2, h3, hst]

theorem fileLoop_totalline {line : String} (rest : List String) {st : ParserState}
    (ret : Dict) (rows : List ProgressRow)
    (h1 : pyStartsWith line "TOTAL:" = false)
    (h2 : pyStartsWith line "RATES:" = false)
    (h3 : pyStartsWith line "PROGRESS:" = false)
    (hst : st = .TOTAL) :
    fileLoop (line :: rest) st ret rows =
    fileLoop rest st (dictUpdate ret (parse_total_line line)) rows := by
  subst hst
  rw [fileLoop]
  simp [h1, h2, h3]

theorem fileLoop_progressline {line : String} (rest : List String) {st : ParserState}
    (ret : Dict) (rows : List ProgressRow)
    (h1 : pyStartsWith line "TOTAL:" = false)
    (h2 : pyStartsWith line "RATES:" = false)
    (h3 : pyStartsWith line "PROGRESS:" = false)
    (hst : st = .PROGRESS) :
    fileLoop (line :: rest) st ret rows = fileLoop rest st ret rows := by
  subst hst
  rw [fileLoop]
  simp [h1, h2, h3]

theorem totalPairs_nil (st : ParserState) : totalPairs [] st = .ok [] := by
  simp [totalPairs]

theorem totalPairs_total {line : String} (rest : List String) (st : ParserState)
    (h : pyStartsWith line "TOTAL:" = true) :
    totalPairs (line :: rest) st = totalPairs rest .TOTAL := by
  rw [totalPairs]
  simp [h]

theorem totalPairs_rates {line : String} (rest : List String) (st : ParserState)
    (h1 : pyStartsWith line "TOTAL:" = false)
    (h2 : pyStartsWith line "RATES:" = true) :
    totalPairs (line :: rest) st = totalPairs rest .RATES := by
  rw [totalPairs]
  simp [h1, h2]

theorem totalPairs_progress {line : String} {rest : List String} (st : ParserState)
    {newRows : List ProgressRow} {rem : List String}
    (h1 : pyStartsWith line "TOTAL:" = false)
    (h2 : pyStartsWith line "RATES:" = false)
    (h3 : pyStartsWith line "PROGRESS:" = true)
    (hp : parse_progress_lines rest = .ok (newRows, rem)) :
    totalPairs (line :: rest) st = totalPairs rem .PROGRESS := by
  rw [totalPairs]
  simp only [h1, h2, h3, Bool.false_eq_true, if_false, if_true]
  split
  · rename_i e heq
    rw [hp] at heq
    simp at heq
  · rename_i nr rm heq
    rw [hp] at heq
    simp only [Except.ok.injEq, Prod.mk.injEq] at heq
    rw [heq.2]

theorem totalPairs_progress_error {line : String} {rest : List String} (st : ParserState)
    {e : PyExn}
    (h1 : pyStartsWith line "TOTAL:" = false)
    (h2 : pyStartsWith line "RATES:" = false)
    (h3 : pyStartsWith line "PROGRESS:" = true)
    (hp : parse_progress_lines rest = .error e) :
    totalPairs (line :: rest) st = .error e := by
  rw [totalPairs]
  simp only [h1, h2, h3, Bool.false_eq_true, if_false, if_true]
  split
  · rename_i e' heq
    rw [hp] at heq
    simp only [Except.error.injEq] at heq
    rw [heq]
  · rename_i nr rm heq
    rw [hp] at heq
    simp at heq

theorem totalPairs_skipline {line : String} (rest : List String) {st : ParserState}
    (h1 : pyStartsWith line "TOTAL:" = false)
    (h2 : pyStartsWith line "RATES:" = false)
    (h3 : pyStartsWith line "PROGRESS:" = false)
    (hst : st = .RATES ∨ st = .NONE) :
    totalPairs (line :: rest) st = totalPairs rest st := by
  rw [totalPairs]
  simp [h1, h2, h3, hst]

theorem totalPairs_totalline {line : String} (rest : List String) {st : ParserState}
    (h1 : pyStartsWith line "TOTAL:" = false)
    (h2 : pyStartsWith line "RATES:" = false)
    (h3 : pyStartsWith line "PROGRESS:" = false)
    (hst : st = .TOTAL) :
    totalPairs (line :: rest) st =
    match totalPairs rest st with
    | .error e => .error e
    | .ok ps => .ok (parse_total_line line ++ ps) := by
  subst hst
  rw [totalPairs]
  simp [h1, h2, h3]

theorem totalPairs_progressline {line : String} (rest : List String) {st : ParserState}
    (h1 : pyStartsWith line "TOTAL:" = false)
    (h2 : pyStartsWith line "RATES:" = false)
    (h3 : pyStartsWith line "PROGRESS:" = false)
    (hst : st = .PROGRESS) :
    totalPairs (line :: rest) st = totalPairs rest st := by
  subst hst
  rw [totalPairs]
  simp [h1, h2, h3]

/-- When both succeed, the counter dict computed by the section state
machine is exactly the initial dict updated with the `token=integer`
occurrences of the TOTAL-section lines, in scan order. -/
theorem fileLoop_totalPairs :
    ∀ (n : Nat) (lines : List String), lines.length ≤ n →
      ∀ (st : ParserState) (ret : Dict) (rows : List ProgressRow)
        (ret' : Dict) (rows' : List ProgressRow) (ps : List (String × Nat)),
        fileLoop lines st ret rows = .ok (ret', rows') →
        totalPairs lines st = .ok ps →
        ret' = dictUpdate ret ps := by
  intro n
  induction n with
  | zero =>
    intro lines hlen st ret rows ret' rows' ps h1 h2
    have hnil : lines = [] := List.length_eq_zero.mp (Nat.le_zero.mp hlen)
    subst hnil
    rw [fileLoop_nil] at h1
    rw [totalPairs_nil] at h2
    simp only [Except.ok.injEq, Prod.mk.injEq] at h1
    simp only [Except.ok.injEq] at h2
    rw [← h1.1, ← h2]
    rfl
  | succ n ih =>
    intro lines hlen st ret rows ret' rows' ps h1 h2
    match lines with
    | [] =>
      rw [fileLoop_nil] at h1
      rw [totalPairs_nil] at h2
      simp only [Except.ok.injEq, Prod.mk.injEq] at h1
      simp only [Except.ok.injEq] at h2
      rw [← h1.1, ← h2]
      rfl
    | line :: rest =>
      have hr : rest.length ≤ n := by
        simp only [List.length_cons] at hlen
        omega
      by_cases hT : pyStartsWith line "TOTAL:" = true
      · rw [fileLoop_total rest st ret rows hT] at h1
        rw [totalPairs_total rest st hT] at h2
        exact ih rest hr _ ret rows ret' rows' ps h1 h2
      · have hT' : pyStartsWith line "TOTAL:" = false := by simpa using hT
        by_cases hR : pyStartsWith line "RATES:" = true
        · rw [fileLoop_rates rest st ret rows hT' hR] at h1
          rw [totalPairs_rates rest st hT' hR] at h2
          exact ih rest hr _ ret rows ret' rows' ps h1 h2
        · have hR' : pyStartsWith line "RATES:" = false := by simpa using hR
          by_cases hP : pyStartsWith line "PROGRESS:" = true
          · cases hpl : parse_progress_lines rest with
            | error e =>
              rw [fileLoop_progress_error st ret rows hT' hR' hP hpl] at h1
              simp at h1
            | ok pr =>
              obtain ⟨newRows, rem⟩ := pr
              rw [fileLoop_progress st ret rows hT' hR' hP hpl] at h1
              rw [totalPairs_progress st hT' hR' hP hpl] at h2
              have hrem : rem.length ≤ n := by
                have := parse_progress_lines_rem_le rest newRows rem hpl
                simp only [List.length_cons] at hlen
                omega
              exact ih rem hrem _ ret newRows ret' rows' ps h1 h2
          · have hP' : pyStartsWith line "PROGRESS:" = false := by simpa using hP
            match st with
            | .RATES =>
              rw [fileLoop_skipline rest ret rows hT' hR' hP' (Or.inl rfl)] at h1
              rw [totalPairs_skipline rest hT' hR' hP' (Or.inl rfl)] at h2
              exact ih rest hr _ ret rows ret' rows' ps h1 h2
            | .NONE =>
              rw [fileLoop_skipline rest ret rows hT' hR' hP' (Or.inr rfl)] at h1
              rw [totalPairs_skipline rest hT' hR' hP' (Or.inr rfl)] at h2
              exact ih rest hr _ ret rows ret' rows' ps h1 h2
            | .PROGRESS =>
              rw [fileLoop_progressline rest ret rows hT' hR' hP' rfl] at h1
              rw [totalPairs_progressline rest hT' hR' hP' rfl] at h2
              exact ih rest hr _ ret rows ret' rows' ps h1 h2
            | .TOTAL =>
              rw [fileLoop_totalline rest ret rows hT' hR' hP' rfl] at h1
              rw [totalPairs_totalline rest hT' hR' hP' rfl] at h2
              cases hq : totalPairs rest .TOTAL with
              | error e => rw [hq] at h2; simp at h2
              | ok ps' =>
                rw [hq] at h2
                simp only [Except.ok.injEq] at h2
                subst h2
                have hih := ih rest hr .TOTAL (dictUpdate ret (parse_total_line line))
                  rows ret' rows' ps' h1 hq
                rw [hih]
                exact (dictUpdate_append ret (parse_total_line line) ps').symm

theorem parseProgressRow_terminator_head :
    ∀ parts, parseProgressRow parts = .terminator → parts.head? = some "total" := by
  intro parts h
  match parts with
  | [] => simp [parseProgressRow] at h
  | extsz :: rest1 =>
    by_cases he : extsz = "total"
    · simp [he]
    · exfalso
      simp only [parseProgressRow, if_neg he] at h
      by_cases hm : extsz ∈ extszClasses
      · rw [if_pos hm] at h
        repeat' split at h
        all_goals simp_all
      · rw [if_neg hm] at h
        simp at h

theorem parseProgressRow_of_total :
    ∀ {parts : List String}, parts.head? = some "total" →
      parseProgressRow parts = .terminator := by
  intro parts h
  match parts with
  | [] => simp at h
  | extsz :: rest =>
    simp only [List.head?_cons, Option.some.injEq] at h
    simp [parseProgressRow, h]

theorem parseProgressRow_skip_of :
    ∀ {parts : List String} {t : String}, parts.head? = some t →
      t ∉ extszClasses → t ≠ "total" → parseProgressRow parts = .skip := by
  intro parts t hh hm ht
  match parts with
  | [] => simp at hh
  | extsz :: rest =>
    simp only [List.head?_cons, Option.some.injEq] at hh
    subst hh
    simp [parseProgressRow, ht, hm]

theorem parse_progress_lines_cons2 {hdr sep : String} (rest : List String)
    (h1 : pyStartsWith hdr "extsz" = true) (h2 : pyStartsWith sep "-----" = true) :
    parse_progress_lines (hdr :: sep :: rest) = parseProgressBody rest := by
  simp [parse_progress_lines, h1, h2]

/-- A table whose body parses to the end without a terminator, followed by
a `total` row and trailing lines, parses to the same rows with the
trailing lines unconsumed. -/
theorem parseProgressBody_append_total :
    ∀ (body : List String) (rows : List ProgressRow) (term : String) (trailing : List String),
      (∀ b ∈ body, (pySplit b).head? ≠ some "total") →
      parseProgressBody body = .ok (rows, []) →
      (pySplit term).head? = some "total" →
      parseProgressBody (body ++ term :: trailing) = .ok (rows, trailing) := by
  intro body
  induction body with
  | nil =>
    intro rows term trailing _ h0 hterm
    simp only [parseProgressBody, Except.ok.injEq, Prod.mk.injEq] at h0
    rw [List.nil_append]
    rw [parseProgressBody_cons_terminator (parseProgressRow_of_total hterm)]
    rw [← h0.1]
  | cons b body' ih =>
    intro rows term trailing hb h0 hterm
    have hbne := hb b (List.mem_cons_self _ _)
    have hbtail : ∀ x ∈ body', (pySplit x).head? ≠ some "total" :=
      fun x hx => hb x (List.mem_cons_of_mem _ hx)
    rw [List.cons_append]
    cases hrr : parseProgressRow (pySplit b) with
    | terminator => exact absurd (parseProgressRow_terminator_head _ hrr) hbne
    | skip =>
      rw [parseProgressBody_cons_skip hrr] at h0 ⊢
      exact ih rows term trailing hbtail h0 hterm
    | valueError =>
      rw [parseProgressBody_cons_valueError hrr] at h0 ⊢
      exact ih rows term trailing hbtail h0 hterm
    | indexError =>
      rw [parseProgressBody_cons_indexError hrr] at h0
      simp at h0
    | row r =>
      rw [parseProgressBody_cons_row hrr] at h0 ⊢
      cases hpb : parseProgressBody body' with
      | error e => rw [hpb] at h0; simp at h0
      | ok pr =>
        obtain ⟨rs, rem⟩ := pr
        rw [hpb] at h0
        simp only [Except.ok.injEq, Prod.mk.injEq] at h0
        have hok : parseProgressBody body' = .ok (rs, []) := by
          rw [hpb, h0.2]
        rw [ih rs term trailing hbtail hok hterm]
        rw [← h0.1]

/-- The `rows` component of a progress-table parse. -/
def rowsOf (e : Except PyExn (List ProgressRow × List String)) :
    Except PyExn (List ProgressRow) :=
  match e with
  | .error e => .error e
  | .ok (rs, _) => .ok rs

/-- Deleting a skipped row from a table body never changes the parsed
rows (it can only change the unconsumed remainder). -/
theorem parseProgressBody_skip_insert :
    ∀ (pre : List String) (bad : String) (post : List String),
      parseProgressRow (pySplit bad) = .skip →
      rowsOf (parseProgressBody (pre ++ bad :: post)) =
      rowsOf (parseProgressBody (pre ++ post)) := by
  intro pre
  induction pre with
  | nil =>
    intro bad post hskip
    rw [List.nil_append, List.nil_append, parseProgressBody_cons_skip hskip]
  | cons p pre' ih =>
    intro bad post hskip
    rw [List.cons_append, List.cons_append]
    cases hrr : parseProgressRow (pySplit p) with
    | terminator =>
      rw [parseProgressBody_cons_terminator hrr, parseProgressBody_cons_terminator hrr]
      rfl
    | skip =>
      rw [parseProgressBody_cons_skip hrr, parseProgressBody_cons_skip hrr]
      exact ih bad post hskip
    | valueError =>
      rw [parseProgressBody_cons_valueError hrr, parseProgressBody_cons_valueError hrr]
      exact ih bad post hskip
    | indexError =>
      rw [parseProgressBody_cons_indexError hrr, parseProgressBody_cons_indexError hrr]
    | row r =>
      rw [parseProgressBody_cons_row hrr, parseProgressBody_cons_row hrr]
      have hih := ih bad post hskip
      cases hA : parseProgressBody (pre' ++ bad :: post) with
      | error e =>
        rw [hA] at hih
        cases hB : parseProgressBody (pre' ++ post) with
        | error e' =>
          rw [hB] at hih
          simp only [rowsOf, Except.error.injEq] at hih
          rw [hih]
        | ok pr =>
          rw [hB] at hih
          simp [rowsOf] at hih
      | ok pr =>
        obtain ⟨rs, rem⟩ := pr
        rw [hA] at hih
        cases hB : parseProgressBody (pre' ++ post) with
        | error e' =>
          rw [hB] at hih
          simp [rowsOf] at hih
        | ok pr' =>
          obtain ⟨rs', rem'⟩ := pr'
          rw [hB] at hih
          simp only [rowsOf, Except.ok.injEq] at hih
          simp only [rowsOf, Except.ok.injEq]
          rw [hih]

/-- Shared extraction: on a successfully parsed file, the counter dict's
lookup is the last-occurrence fold over the TOTAL-section pairs. -/
theorem collect_counters_eq_lastVal :
    ∀ (lines : List String) (ts : Rat) (m : Dict) (rows : List ProgressRow)
      (ps : List (String × Nat)),
      collect_stats_from_file (.ok lines ts) = .ok (m, rows, ts) →
      totalPairs lines .NONE = .ok ps →
      ∀ t, dictGet m t = lastVal ps t := by
  intro lines ts m rows ps hc hp t
  simp only [collect_stats_from_file] at hc
  cases hfl : fileLoop lines .NONE [] [] with
  | error e => rw [hfl] at hc; simp at hc
  | ok pr =>
    obtain ⟨ret, rws⟩ := pr
    rw [hfl] at hc
    simp only [Except.ok.injEq, Prod.mk.injEq] at hc
    have hcorr := fileLoop_totalPairs lines.length lines (le_refl _) .NONE [] []
      ret rws ps hfl hp
    rw [← hc.1, hcorr, dictGet_dictUpdate]
    rfl

/-- C6: for every file content whose parse succeeds, the counter mapping
contains exactly the tokens of the well-formed `token=integer` occurrences
found on the lines of the TOTAL section (`totalPairs`), each mapped to its
stated integer value (stated under the hypothesis that each token has one
stated value; `c10_duplicate_token_last_wins` covers conflicting
duplicates), regardless of how the pairs are distributed across lines. -/
theorem c6_total_section_exact :
    ∀ (lines : List String) (ts : Rat) (m : Dict) (rows : List ProgressRow)
      (ps : List (String × Nat)),
      collect_stats_from_file (.ok lines ts) = .ok (m, rows, ts) →
      totalPairs lines .NONE = .ok ps →
      (∀ t v v', (t, v) ∈ ps → (t, v') ∈ ps → v = v') →
      ∀ t v, dictGet m t = some v ↔ (t, v) ∈ ps := by
  intro lines ts m rows ps hc hp hfun t v
  rw [collect_counters_eq_lastVal lines ts m rows ps hc hp t, lastVal]
  constructor
  · intro hsome
    rcases foldl_lastVal_mem t ps none v hsome with hmem | hbad
    · exact hmem
    · simp at hbad
  · intro hmem
    obtain ⟨w, hw⟩ := lastVal_some_of_mem t v ps none hmem
    rcases foldl_lastVal_mem t ps none w hw with hmemw | hbad
    · rw [hw, hfun t w v hmemw hmem]
    · simp at hbad

/-- C6 witness: the file `TOTAL:` / `x=1` yields a mapping containing
exactly `x ↦ 1`. -/
theorem c6_total_section_exact_witness :
    dictGet [("x", 1)] "x" = some 1 := by
  have hfile : collect_stats_from_file (.ok ["TOTAL:", "x=1"] 7) =
      .ok ([("x", 1)], [], 7) := by
    simp only [collect_stats_from_file]
    rw [fileLoop_total _ _ _ _ (by decide),
      fileLoop_totalline _ _ _ (by decide) (by decide) (by decide) rfl, fileLoop_nil]
    decide
  have hps : totalPairs ["TOTAL:", "x=1"] .NONE = .ok [("x", 1)] := by
    rw [totalPairs_total _ _ (by decide),
      totalPairs_totalline _ (by decide) (by decide) (by decide) rfl, totalPairs_nil]
    decide
  have hfun : ∀ t v v', (t, v) ∈ [("x", 1)] → (t, v') ∈ [("x", 1)] → v = v' := by
    intro t v v' h1 h2
    simp only [List.mem_singleton, Prod.mk.injEq] at h1 h2
    rw [h1.2, h2.2]
  exact (c6_total_section_exact ["TOTAL:", "x=1"] 7 [("x", 1)] [] [("x", 1)]
    hfile hps hfun "x" 1).mpr (by decide)

/-- C10: if the same token appears in several `token=integer` occurrences
of the TOTAL section, the counter mapping holds the value of the last
occurrence in scan order (earlier values are overwritten). -/
theorem c10_duplicate_token_last_wins :
    ∀ (lines : List String) (ts : Rat) (m : Dict) (rows : List ProgressRow)
      (ps : List (String × Nat)) (t : String),
      collect_stats_from_file (.ok lines ts) = .ok (m, rows, ts) →
      totalPairs lines .NONE = .ok ps →
      2 ≤ (ps.filter (fun p => p.1 = t)).length →
      dictGet m t = ((ps.filter (fun p => p.1 = t)).map (fun p => p.2)).getLast? := by
  intro lines ts m rows ps t hc hp _
  rw [collect_counters_eq_lastVal lines ts m rows ps hc hp t]
  exact lastVal_eq_getLast? ps t

/-- C10 witness: in `TOTAL:` / `a=1 a=2` / `a=3` the mapping holds `a ↦ 3`,
the last stated value. -/
theorem c10_duplicate_token_last_wins_witness :
    dictGet [("a", 3), ("a", 2), ("a", 1)] "a" = some 3 := by
  have hfile : collect_stats_from_file (.ok ["TOTAL:", "a=1 a=2", "a=3"] 4) =
      .ok ([("a", 3), ("a", 2), ("a", 1)], [], 4) := by
    simp only [collect_stats_from_file]
    rw [fileLoop_total _ _ _ _ (by decide),
      fileLoop_totalline _ _ _ (by decide) (by decide) (by decide) rfl,
      fileLoop_totalline _ _ _ (by decide) (by decide) (by decide) rfl, fileLoop_nil]
    decide
  have hps : totalPairs ["TOTAL:", "a=1 a=2", "a=3"] .NONE =
      .ok [("a", 1), ("a", 2), ("a", 3)] := by
    rw [totalPairs_total _ _ (by decide),
      totalPairs_totalline _ (by decide) (by decide) (by decide) rfl,
      totalPairs_totalline _ (by decide) (by decide) (by decide) rfl, totalPairs_nil]
    decide
  have h := c10_duplicate_token_last_wins ["TOTAL:", "a=1 a=2", "a=3"] 4
    [("a", 3), ("a", 2), ("a", 1)] [] [("a", 1), ("a", 2), ("a", 3)] "a"
    hfile hps (by decide)
  rw [h]
  decide

/-- C1 (code bug): with fewer than two lines remaining after `PROGRESS:`,
the header check of `_parse_progress_lines` does not return an empty row
sequence — `next(lines)` raises `StopIteration`, which escapes the parser
and aborts the collection of that file, contradicting the claim's
"never raises an exception that escapes the parser". -/
theorem c1_truncated_header_raises :
    parse_progress_lines [] = .error .stopIteration ∧
    parse_progress_lines ["extsz datasz point gen_min gen_max"] =
      .error .stopIteration ∧
    collect_stats_from_file (.ok ["PROGRESS:"] 0) = .error .stopIteration ∧
    collectValues [("u", .ok ["PROGRESS:"] 0)] = .error .stopIteration ∧
    parse_progress_lines ["bogus header", "rest"] = .ok ([], ["rest"]) ∧
    parse_progress_lines ["extsz", "bogus separator", "rest"] = .ok ([], ["rest"]) := by
  refine ⟨by decide, by decide, ?_, ?_, by decide, by decide⟩
  · simp only [collect_stats_from_file]
    rw [fileLoop_progress_error .NONE [] [] (by decide) (by decide) (by decide)
      (by decide : parse_progress_lines ([] : List String) = .error .stopIteration)]
  · simp only [collectValues, collect_stats_from_file]
    rw [fileLoop_progress_error .NONE [] [] (by decide) (by decide) (by decide)
      (by decide : parse_progress_lines ([] : List String) = .error .stopIteration)]

/-- C2 (code bug): a body row with fewer than five fields (here
`32M 1.5M`, or an empty line) raises `IndexError` from `parts[i]`, which
`except ValueError` does not catch: the whole table parse aborts and the
valid sibling row `8M 512K 77 50 90` is lost, contradicting the claim's
"skips only that row and parsing continues".  A genuine `ValueError`
(non-integer field, third conjunct) is caught and does skip only that
row. -/
theorem c2_short_row_raises :
    parse_progress_lines
      ["extsz datasz point gen_min gen_max", "------",
       "32M 1.5M", "8M 512K 77 50 90", "total 1 1 1 1"] = .error .indexError ∧
    parse_progress_lines
      ["extsz", "-----", "", "8M 512K 77 50 90", "total"] = .error .indexError ∧
    parse_progress_lines
      ["extsz", "-----", "32M 1.5M idle 100 nope", "8M 512K 77 50 90", "total"] =
      .ok ([⟨"8M", "512K", .val 77, 50, 90⟩], []) := by
  refine ⟨by decide, by decide, by decide⟩

/-- C3 counterexample: in this file the progress table is terminated by a
`total` row, after which the outer loop resumes on the unconsumed lines:
a later `TOTAL:` section contributes the counter `a=1` and a later
`PROGRESS:` header re-invokes the table parser, replacing the empty row
list with the `8M` row — so lines after the progress table do contribute
to the returned counter mapping and row sequence. -/
theorem c3_counterexample :
    collect_stats_from_file
      (.ok ["PROGRESS:", "extsz", "-----", "total", "TOTAL:", "a=1",
            "PROGRESS:", "extsz", "-----", "8M 512K 77 50 90"] 0) =
    .ok ([("a", 1)], [⟨"8M", "512K", .val 77, 50, 90⟩], 0) := by
  simp only [collect_stats_from_file]
  rw [fileLoop_progress .NONE [] [] (by decide) (by decide) (by decide)
    (by decide :
      parse_progress_lines
        ["extsz", "-----", "total", "TOTAL:", "a=1",
         "PROGRESS:", "extsz", "-----", "8M 512K 77 50 90"] =
      .ok ([], ["TOTAL:", "a=1", "PROGRESS:", "extsz", "-----", "8M 512K 77 50 90"]))]
  rw [fileLoop_total _ _ _ _ (by decide)]
  rw [fileLoop_totalline _ _ _ (by decide) (by decide) (by decide) rfl]
  rw [fileLoop_progress .TOTAL _ _ (by decide) (by decide) (by decide)
    (by decide :
      parse_progress_lines ["extsz", "-----", "8M 512K 77 50 90"] =
      .ok ([⟨"8M", "512K", .val 77, 50, 90⟩], []))]
  rw [fileLoop_nil]
  decide

/-- C3 amended: once a `PROGRESS:` line is seen the remaining iterator is
delegated to `_parse_progress_lines` and its result replaces the row
sequence; parsing of the file ends there exactly when the table parser
consumes the entire remainder.  When it leaves lines unconsumed (failed
header check or `total` terminator) the section state machine resumes on
them, so they can still contribute counters or replace the rows. -/
theorem c3_progress_delegation (line : String) (rest : List String)
    (st : ParserState) (ret : Dict) (rows0 newRows : List ProgressRow)
    (rem : List String)
    (h1 : pyStartsWith line "TOTAL:" = false)
    (h2 : pyStartsWith line "RATES:" = false)
    (h3 : pyStartsWith line "PROGRESS:" = true)
    (hp : parse_progress_lines rest = .ok (newRows, rem)) :
    fileLoop (line :: rest) st ret rows0 = fileLoop rem .PROGRESS ret newRows ∧
    (rem = [] → fileLoop (line :: rest) st ret rows0 = .ok (ret, newRows)) := by
  constructor
  · exact fileLoop_progress st ret rows0 h1 h2 h3 hp
  · intro hrem
    rw [fileLoop_progress st ret rows0 h1 h2 h3 hp, hrem, fileLoop_nil]

/-- C3 amended, witness: a file ending right after a fully consumed
progress table parses to the accumulated counters and the parsed rows. -/
theorem c3_progress_delegation_witness :
    fileLoop ["PROGRESS:", "extsz", "-----", "8M 512K 77 50 90"]
      ParserState.NONE [] [] = .ok ([], [⟨"8M", "512K", .val 77, 50, 90⟩]) := by
  have h := c3_progress_delegation "PROGRESS:" ["extsz", "-----", "8M 512K 77 50 90"]
    .NONE [] [] [⟨"8M", "512K", .val 77, 50, 90⟩] []
    (by decide) (by decide) (by decide) (by decide)
  exact h.2 rfl

/-- C4: the unit converter returns the truncated integer byte count for a
decimal (possibly fractional) numeral followed by a recognized suffix;
when the final character is not a recognized suffix it returns `None`
(no byte value, no exception); and in the caller a conversion failure
only omits the datasz sample of that row — the row's other samples are
still emitted and no exception is raised. -/
theorem c4_unit_converter :
    (∀ (s : String) (c : Char) (n k u : Nat),
      parseDecimal s = some (n, k) → unitFactor c = some u →
      datasz_to_bytes (s.push c) = .ok (some (n * u / 10 ^ k))) ∧
    (∀ (s : String) (c : Char),
      s.data.getLast? = some c → unitFactor c = none →
      datasz_to_bytes s = .ok none) ∧
    (∀ (uuid : String) (ts : Rat) (r : ProgressRow),
      datasz_to_bytes r.datasz = .ok none →
      ∃ em, emit_progress_row uuid ts r = .ok em ∧ em.datasz = none) := by
  refine ⟨?_, ?_, ?_⟩
  · intro s c n k u hd hu
    have h1 : (s.push c).data = s.data ++ [c] := rfl
    simp only [datasz_to_bytes, h1, List.getLast?_concat, List.dropLast_concat, hu, hd]
  · intro s c hl hu
    simp only [datasz_to_bytes, hl, hu]
  · intro uuid ts r h
    simp only [emit_progress_row, h]
    exact ⟨_, rfl, rfl⟩

/-- C4 witness: `1.5M ↦ 1572864`, `512K ↦ 524288`, `10 ↦` failure, and a
row whose datasz fails conversion still produces an emission with only
the datasz sample missing. -/
theorem c4_unit_converter_witness :
    datasz_to_bytes "1.5M" = .ok (some 1572864) ∧
    datasz_to_bytes "512K" = .ok (some 524288) ∧
    datasz_to_bytes "10" = .ok none ∧
    (∃ em, emit_progress_row "u" 0 ⟨"32M", "10", .idle, 1, 2⟩ = .ok em ∧
      em.datasz = none) := by
  obtain ⟨hA, hB, hC⟩ := c4_unit_converter
  refine ⟨?_, ?_, ?_, ?_⟩
  · have h := hA "1.5" 'M' 15 1 1048576 (by decide) (by decide)
    have he : ("1.5" : String).push 'M' = "1.5M" := by decide
    rw [he] at h
    exact h.trans (by decide)
  · have h := hA "512" 'K' 512 0 1024 (by decide) (by decide)
    have he : ("512" : String).push 'K' = "512K" := by decide
    rw [he] at h
    exact h.trans (by decide)
  · exact hB "10" '0' (by decide) (by decide)
  · exact hC "u" 0 ⟨"32M", "10", .idle, 1, 2⟩ (by decide)

/-- C5 counterexample: a present-but-unreadable file is not handled by
`_collect_stats_from_file` (only `FileNotFoundError` is caught): the
`PermissionError` escapes and aborts the collection cycle instead of
yielding an empty result for that source only. -/
theorem c5_counterexample :
    collect_stats_from_file .permissionDenied = .error .permissionError ∧
    collectValues [("a", .notFound), ("b", .permissionDenied)] =
      .error .permissionError := by
  exact ⟨rfl, rfl⟩

/-- C5 amended: a missing status file yields the empty result
`({}, [], 0.0)` for that source only (logged warning) and does not abort
the collection cycle — the sources before and after it in the same cycle
are still processed and keep their own results. -/
theorem c5_missing_file_recoverable :
    ∀ (stem : String) (pre post : List (String × FileOutcome))
      (rpre rpost : List (String × (Dict × List ProgressRow × Rat))),
      collectValues pre = .ok rpre → collectValues post = .ok rpost →
      collect_stats_from_file .notFound = .ok ([], [], 0) ∧
      collectValues (pre ++ (stem, .notFound) :: post) =
        .ok (rpre ++ (stem, ([], [], 0)) :: rpost) := by
  intro stem pre post rpre rpost hpre hpost
  refine ⟨rfl, ?_⟩
  induction pre generalizing rpre with
  | nil =>
    simp only [collectValues] at hpre
    simp only [Except.ok.injEq] at hpre
    subst hpre
    simp only [List.nil_append, collectValues, collect_stats_from_file]
    rw [hpost]
  | cons hd tl ih =>
    obtain ⟨nm, fo⟩ := hd
    simp only [collectValues] at hpre
    simp only [List.cons_append, collectValues]
    cases hc : collect_stats_from_file fo with
    | error e => rw [hc] at hpre; simp at hpre
    | ok r =>
      rw [hc] at hpre
      cases ht : collectValues tl with
      | error e => rw [ht] at hpre; simp at hpre
      | ok rs =>
        rw [ht] at hpre
        simp only [Except.ok.injEq] at hpre
        subst hpre
        simp only [List.append_eq]
        rw [ih rs ht]
        simp

/-- C5 amended, witness: a cycle over a parsed file, a missing file and
another parsed file processes all three, the missing one yielding the
empty result. -/
theorem c5_missing_file_recoverable_witness :
    collectValues
      [("a", .ok ["TOTAL:", "x=1"] 5), ("m", .notFound), ("b", .ok ["RATES:", "z=9"] 7)] =
    .ok [("a", ([("x", 1)], [], 5)), ("m", ([], [], 0)), ("b", ([], [], 7))] := by
  have hfa : collect_stats_from_file (.ok ["TOTAL:", "x=1"] 5) =
      .ok ([("x", 1)], [], 5) := by
    simp only [collect_stats_from_file]
    rw [fileLoop_total _ _ _ _ (by decide),
      fileLoop_totalline _ _ _ (by decide) (by decide) (by decide) rfl, fileLoop_nil]
    decide
  have hfb : collect_stats_from_file (.ok ["RATES:", "z=9"] 7) = .ok ([], [], 7) := by
    simp only [collect_stats_from_file]
    rw [fileLoop_rates _ _ _ _ (by decide) (by decide),
      fileLoop_skipline _ _ _ (by decide) (by decide) (by decide) (Or.inl rfl),
      fileLoop_nil]
  have hpre : collectValues [("a", .ok ["TOTAL:", "x=1"] 5)] =
      .ok [("a", ([("x", 1)], [], 5))] := by
    simp only [collectValues, hfa]
  have hpost : collectValues [("b", .ok ["RATES:", "z=9"] 7)] =
      .ok [("b", ([], [], 7))] := by
    simp only [collectValues, hfb]
  have h := c5_missing_file_recoverable "m" [("a", .ok ["TOTAL:", "x=1"] 5)]
    [("b", .ok ["RATES:", "z=9"] 7)] [("a", ([("x", 1)], [], 5))] [("b", ([], [], 7))]
    hpre hpost
  exact h.2

/-- C7: a progress table whose body parses with no terminator and no
fatal row, followed by a `total` row, returns exactly the rows collected
before the terminator, in input order, leaving the terminator's trailing
summary lines unparsed. -/
theorem c7_total_terminator (hdr sep : String) (body : List String) (term : String)
    (trailing : List String) (rows : List ProgressRow)
    (h1 : pyStartsWith hdr "extsz" = true)
    (h2 : pyStartsWith sep "-----" = true)
    (hterm : (pySplit term).head? = some "total")
    (hbody : ∀ b ∈ body, (pySplit b).head? ≠ some "total")
    (hok : parseProgressBody body = .ok (rows, [])) :
    parse_progress_lines (hdr :: sep :: (body ++ term :: trailing)) =
    .ok (rows, trailing) := by
  rw [parse_progress_lines_cons2 _ h1 h2]
  exact parseProgressBody_append_total body rows term trailing hbody hok hterm

/-- C7 witness: a concrete `total`-terminated table returns exactly the
two preceding rows and leaves the summary line unparsed. -/
theorem c7_total_terminator_witness :
    parse_progress_lines
      ["extsz datasz point gen_min gen_max", "-----   -----",
       "32M 1.5M idle 100 200", "8M 512K 77 50 90", "total 2.5G 0 0 0",
       "summary junk"] =
    .ok ([⟨"32M", "1.5M", .idle, 100, 200⟩, ⟨"8M", "512K", .val 77, 50, 90⟩],
      ["summary junk"]) := by
  exact c7_total_terminator "extsz datasz point gen_min gen_max" "-----   -----"
    ["32M 1.5M idle 100 200", "8M 512K 77 50 90"] "total 2.5G 0 0 0"
    ["summary junk"]
    [⟨"32M", "1.5M", .idle, 100, 200⟩, ⟨"8M", "512K", .val 77, 50, 90⟩]
    (by decide) (by decide) (by decide) (by decide) (by decide)

/-- C8: a row whose extent-size token is outside the fixed class set (and
is not the `total` terminator) is skipped: deleting it from the table
leaves the parsed row sequence unchanged, so all sibling valid rows are
still returned in their relative order and the table is not aborted. -/
theorem c8_unknown_extsz_skipped (hdr sep : String) (pre : List String) (bad : String)
    (post : List String) (t : String)
    (h1 : pyStartsWith hdr "extsz" = true)
    (h2 : pyStartsWith sep "-----" = true)
    (hh : (pySplit bad).head? = some t)
    (hm : t ∉ extszClasses) (ht : t ≠ "total") :
    rowsOf (parse_progress_lines (hdr :: sep :: (pre ++ bad :: post))) =
    rowsOf (parse_progress_lines (hdr :: sep :: (pre ++ post))) := by
  rw [parse_progress_lines_cons2 _ h1 h2, parse_progress_lines_cons2 _ h1 h2]
  exact parseProgressBody_skip_insert pre bad post (parseProgressRow_skip_of hh hm ht)

/-- C8 witness: the unknown class `64M` row is dropped while the `32M`
and `8M` sibling rows are still returned in order. -/
theorem c8_unknown_extsz_skipped_witness :
    rowsOf (parse_progress_lines
      ["extsz", "-----", "32M 1.5M idle 100 200", "64M 9 9 9 9",
       "8M 512K 77 50 90", "total x"]) =
    .ok [⟨"32M", "1.5M", .idle, 100, 200⟩, ⟨"8M", "512K", .val 77, 50, 90⟩] := by
  have h := c8_unknown_extsz_skipped "extsz" "-----" ["32M 1.5M idle 100 200"]
    "64M 9 9 9 9" ["8M 512K 77 50 90", "total x"] "64M"
    (by decide) (by decide) (by decide) (by decide) (by decide)
  exact h.trans (by decide)

/-- C9: for every aggregated progress row (whose datasz conversion does
not raise), all samples carry the `(uuid, extent-size)` label pair; an
idle point yields an idle-indicator sample of `1` and no point sample,
and an integer point `n` yields an idle-indicator sample of `0` together
with a point sample of value `n`. -/
theorem c9_point_idle_samples :
    ∀ (uuid : String) (ts : Rat) (r : ProgressRow) (ob : Option Nat),
      datasz_to_bytes r.datasz = .ok ob →
      ∃ em, emit_progress_row uuid ts r = .ok em ∧
        em.point_idle.uuid = uuid ∧ em.point_idle.extent_size = r.extsz ∧
        em.gen_min = ⟨uuid, r.extsz, r.gen_min, ts⟩ ∧
        em.gen_max = ⟨uuid, r.extsz, r.gen_max, ts⟩ ∧
        (r.point = .idle → em.point_idle.value = 1 ∧ em.point = none) ∧
        (∀ n, r.point = .val n →
          em.point_idle.value = 0 ∧ em.point = some ⟨uuid, r.extsz, n, ts⟩) := by
  intro uuid ts r ob h
  refine ⟨{ datasz := ob.map (fun b => ⟨uuid, r.extsz, (b : Int), ts⟩)
            point_idle := ⟨uuid, r.extsz, if r.point = .idle then 1 else 0, ts⟩
            point :=
              match r.point with
              | .idle => none
              | .val n => some ⟨uuid, r.extsz, n, ts⟩
            gen_min := ⟨uuid, r.extsz, r.gen_min, ts⟩
            gen_max := ⟨uuid, r.extsz, r.gen_max, ts⟩ },
    ?_, rfl, rfl, rfl, rfl, ?_, ?_⟩
  · simp only [emit_progress_row, h]
  · intro hidle
    rw [hidle]
    exact ⟨by simp, rfl⟩
  · intro n hval
    rw [hval]
    constructor
    · simp
    · rfl

/-- C9 witness: an idle row yields idle `1` and no point sample; a row
with point `77` yields idle `0` and a point sample `77`. -/
theorem c9_point_idle_samples_witness :
    (∃ em, emit_progress_row "u" (0 : Rat) ⟨"32M", "1.5M", .idle, 100, 200⟩ = .ok em ∧
      em.point_idle.value = 1 ∧ em.point = none) ∧
    (∃ em, emit_progress_row "u" (0 : Rat) ⟨"8M", "512K", .val 77, 50, 90⟩ = .ok em ∧
      em.point_idle.value = 0 ∧ em.point = some ⟨"u", "8M", 77, 0⟩) := by
  constructor
  · obtain ⟨em, hem, _, _, _, _, hidle, _⟩ :=
      c9_point_idle_samples "u" 0 ⟨"32M", "1.5M", .idle, 100, 200⟩ (some 1572864)
        (by decide)
    exact ⟨em, hem, (hidle rfl).1, (hidle rfl).2⟩
  · obtain ⟨em, hem, _, _, _, _, _, hval⟩ :=
      c9_point_idle_samples "u" 0 ⟨"8M", "512K", .val 77, 50, 90⟩ (some 524288)
        (by decide)
    exact ⟨em, hem, (hval 77 rfl).1, (hval 77 rfl).2⟩
